import Mathlib

/-!
Shallow embedding of `arbol/arbol.py`: the tree-formatting and
depth-tracking engine (`Arbol` configuration state, `aprint`, `asection`,
`_print_elapsed`, `set_log_max_depth`, and the legacy facade
`lprint`/`lsection`).

Modelling conventions:
* Text is `List Char` (`Str`); Python string concatenation is `++`,
  `'c' * n` is `pyRepeat`, `sep.join(..)` is `joinArgs`, `s.split('\n')`
  is `pySplitLines`.
* Console output is modelled as the list of strings passed to Python's
  `print` (one entry per `print` call, with the `end` terminator
  appended).  `Arbol.native_print` contributes an entry only when
  `enable_output` holds; the raw `print` in `aprint`'s
  passthrough/captured branch always contributes one.
* `Arbol._depth` is `ℤ` (a Python int); `Arbol.max_depth` is
  `Option ℤ` with `none` standing for the default `math.inf`.
* Wall-clock durations (`time.time()` differences) are `ℚ`; the float
  literal `0.001` is modelled as `mkRat 1 1000`, and the `f'{x:.2f}'`
  format as round-half-to-even at two decimals (`format2`).
* The `color` function is the identity fallback defined in the source
  for when the `ansicolors` package is absent, so `_colorise` is the
  identity on text either way.
* The `file` and `flush` print parameters are dropped: they select the
  destination stream and its buffering and do not affect the rendered
  text.
-/

abbrev Str := List Char

/-- Glyph `Arbol._vl_` ('Vertical Line'), Unicode variant. -/
def vlG : Str := ['│']

/-- Glyph `Arbol._br_` ('Branch Right'). -/
def brG : Str := ['├']

/-- Glyph `Arbol._bd_` ('Branch Down'). -/
def bdG : Str := ['├', '╗']

/-- Glyph `Arbol._tb_` ('Terminate Branch'). -/
def tbG : Str := ['┴']

/-- Glyph `Arbol._la_` ('Left Arrow'). -/
def laG : Str := ['«']

def spG : Str := [' ']

def nlG : Str := ['\n']

/-- The fixed truncation annotation appended to a boundary section header. -/
def truncMsg : Str := " (log tree truncated here)".data

/-- The class-level configuration and depth state of the `Arbol` class,
together with the thread-local `captured` flag. -/
@[ext]
structure St where
  depth : ℤ
  passthrough : Bool
  enable_output : Bool
  colorful : Bool
  max_depth : Option ℤ
  elapsed_time : Bool
  captured : Bool
deriving DecidableEq, Repr

/-- The fallback `color` function defined in the source when the
`ansicolors` import fails: it returns the text unchanged. -/
def color (text : Str) : Str := text

/-- `_colorise`: apply `color` when `Arbol.colorful` is set. -/
def colorise (s : St) (text : Str) : Str :=
  if s.colorful then color text else text

/-- `Arbol.native_print` restricted to one text argument, as used in
the source: prints `text` (colorised) followed by `endS` when
`enable_output` holds, and prints nothing otherwise. -/
def nativePrint (s : St) (text : Str) (endS : Str) : List Str :=
  if s.enable_output then [colorise s text ++ endS] else []

/-- Python comparison `a <= Arbol.max_depth` where `max_depth` may be
`math.inf` (`none`). -/
def leMax (a : ℤ) (m : Option ℤ) : Bool :=
  match m with
  | none => true
  | some k => decide (a ≤ k)

/-- Python comparison `a == Arbol.max_depth + 1` where `max_depth` may be
`math.inf` (`none`; then `max_depth + 1` is again `inf`, never equal to
an int). -/
def eqMaxP1 (a : ℤ) (m : Option ℤ) : Bool :=
  match m with
  | none => false
  | some k => decide (a = k + 1)

/-- Python `min(Arbol.max_depth, Arbol._depth)` followed by `int(...)`. -/
def pyMin (m : Option ℤ) (d : ℤ) : ℤ :=
  match m with
  | none => d
  | some k => min k d

/-- Python string repetition `g * n` (empty for `n <= 0`). -/
def pyRepeat (g : Str) (n : ℤ) : Str :=
  (List.replicate n.toNat g).flatten

/-- Python `sep.join(args)`. -/
def joinArgs (sep : Str) (args : List Str) : Str :=
  (List.intersperse sep args).flatten

/-- Python `text.split('\n')`: splits on every newline; the empty text
yields one empty line. -/
def pySplitLines : Str → List Str
  | [] => [[]]
  | c :: cs =>
    if c = '\n' then [] :: pySplitLines cs
    else
      match pySplitLines cs with
      | [] => [[c]]
      | l :: ls => (c :: l) :: ls

/-- `aprint(*args, sep=sep, end=endS, separate_lines=sepLines)`: the list
of `print`-level emissions it performs in state `s`. -/
def aprint (s : St) (args : List Str) (sep : Str) (endS : Str)
    (sepLines : Bool) : List Str :=
  if s.passthrough || s.captured then
    [joinArgs sep args ++ endS]
  else if leMax s.depth s.max_depth then
    let level := pyMin s.max_depth s.depth
    let text := joinArgs sep args
    let lines := pySplitLines text
    lines.enum.flatMap fun p =>
      if p.2 = [] then []
      else
        nativePrint s
          (colorise s
            (pyRepeat vlG level ++ (if p.1 = 0 || sepLines then brG else vlG))
            ++ spG) []
        ++ nativePrint s p.2 endS
  else []

/-- `Arbol.set_log_max_depth`: stores `max(0, max_depth - 1)`. -/
def set_log_max_depth (maxDepthArg : ℤ) (s : St) : St :=
  { s with max_depth := some (max 0 (maxDepthArg - 1)) }

/-- `Arbol.set_log_elapsed_time`. -/
def set_log_elapsed_time (b : Bool) (s : St) : St :=
  { s with elapsed_time := b }

/-- Python `math.floor` on a rational. -/
def pyFloor (q : ℚ) : ℤ := q.floor

/-- Round to the nearest integer, ties to even, as Python's float
formatting does. -/
def roundHalfEven (q : ℚ) : ℤ :=
  let f := pyFloor q
  if q - f < mkRat 1 2 then f
  else if mkRat 1 2 < q - f then f + 1
  else if f % 2 = 0 then f else f + 1

/-- Python `f'{q:.2f}'`: the number rendered with exactly two decimal
places. -/
def format2 (q : ℚ) : Str :=
  let n := roundHalfEven (q * 100)
  let a := n.natAbs
  let ip := a / 100
  let fp := a % 100
  (if n < 0 then ['-'] else [])
    ++ (toString ip).data ++ ['.']
    ++ (if fp < 10 then ['0'] else []) ++ (toString fp).data

def microStr : Str := "microseconds".data

def milliStr : Str := "milliseconds".data

def secondsStr : Str := "seconds".data

def minutesStr : Str := "minutes".data

def hoursStr : Str := "hours".data

def daysStr : Str := "days".data

/-- The glyph prefix of an elapsed-time footer line at the current
depth: `Arbol._vl_ * (Arbol._depth + 1) + Arbol._tb_ + Arbol._la_`. -/
def elapsedPrefix (s : St) : Str :=
  pyRepeat vlG (s.depth + 1) ++ tbG ++ laG

/-- `_print_elapsed(elapsed)`: one `native_print` emission whose unit is
selected by first-match-wins thresholds on the duration in seconds. -/
def printElapsed (s : St) (elapsed : ℚ) : List Str :=
  if elapsed < mkRat 1 1000 then
    nativePrint s
      (colorise s (elapsedPrefix s)
        ++ colorise s (spG ++ format2 (elapsed * 1000 * 1000) ++ spG ++ microStr)) nlG
  else if elapsed < 1 then
    nativePrint s
      (colorise s (elapsedPrefix s)
        ++ colorise s (spG ++ format2 (elapsed * 1000) ++ spG ++ milliStr)) nlG
  else if elapsed < 60 then
    nativePrint s
      (colorise s (elapsedPrefix s)
        ++ colorise s (spG ++ format2 elapsed ++ spG ++ secondsStr)) nlG
  else if elapsed < 60 * 60 then
    nativePrint s
      (colorise s (elapsedPrefix s)
        ++ colorise s (spG ++ format2 (elapsed / 60) ++ spG ++ minutesStr)) nlG
  else if elapsed < 24 * 60 * 60 then
    nativePrint s
      (colorise s (elapsedPrefix s)
        ++ colorise s (spG ++ format2 (elapsed / (60 * 60)) ++ spG ++ hoursStr)) nlG
  else
    nativePrint s
      (colorise s (elapsedPrefix s)
        ++ colorise s (spG ++ format2 (elapsed / (24 * 60 * 60)) ++ spG ++ daysStr)) nlG

/-- The emissions of `asection`'s entry: the section header line when the
new level is within `max_depth`, the single truncation marker at the
boundary level, and nothing deeper. -/
def sectionEntry (s : St) (hdr : Str) : List Str :=
  if leMax (s.depth + 1) s.max_depth then
    nativePrint s
      (colorise s (pyRepeat vlG s.depth ++ bdG) ++ spG ++ colorise s hdr) nlG
  else if eqMaxP1 (s.depth + 1) s.max_depth then
    nativePrint s
      (colorise s (pyRepeat vlG s.depth ++ brG ++ ['='])
        ++ colorise s (spG ++ hdr) ++ colorise s truncMsg) nlG
  else []

/-- The emissions of `asection`'s exit, taken in the post-decrement
state `s`: the elapsed-time footer (when enabled) and the bare closing
line, both only when `Arbol._depth <= Arbol.max_depth`. -/
def sectionExit (s : St) (elapsed : ℚ) : List Str :=
  if leMax s.depth s.max_depth then
    (if s.elapsed_time then printElapsed s elapsed else [])
      ++ nativePrint s (colorise s (pyRepeat vlG (s.depth + 1))) nlG
  else []

/-- Client programs over the arbol API: `skip`, a `raise`, an `aprint`
call, sequencing, and a `with asection(hdr): body` block.  `ε` is the
type of exception objects; `elapsed` is the wall-clock duration the
section's two `time.time()` calls measure. -/
inductive Prog (ε : Type) where
  | skip : Prog ε
  | raiseE (e : ε) : Prog ε
  | aprintP (args : List Str) (sep : Str) (endS : Str) (sepLines : Bool) : Prog ε
  | seq (p q : Prog ε) : Prog ε
  | asectionP (hdr : Str) (elapsed : ℚ) (body : Prog ε) : Prog ε

/-- Run a program: final state, emissions in order, and the exception
escaping it (if any).  A raised exception aborts the rest of a `seq`;
`asectionP` renders its entry, increments the depth, runs the body
capturing any exception, decrements the depth, renders its exit
bookkeeping, and only then re-raises the captured exception. -/
def run {ε : Type} : Prog ε → St → St × List Str × Option ε
  | .skip, s => (s, [], none)
  | .raiseE e, s => (s, [], some e)
  | .aprintP args sep endS sepLines, s =>
    (s, aprint s args sep endS sepLines, none)
  | .seq p q, s =>
    let r := run p s
    match r.2.2 with
    | some e => (r.1, r.2.1, some e)
    | none =>
      let r' := run q r.1
      (r'.1, r.2.1 ++ r'.2.1, r'.2.2)
  | .asectionP hdr elapsed body, s =>
    let entry := sectionEntry s hdr
    let r := run body { s with depth := s.depth + 1 }
    let s3 := { r.1 with depth := r.1.depth - 1 }
    let exitEv := sectionExit s3 elapsed
    (s3, entry ++ r.2.1 ++ exitEv, r.2.2)

/-- `lprint`: the deprecated alias, delegating to `aprint` with the same
arguments and the default `separate_lines=False`. -/
def lprint (s : St) (args : List Str) (sep : Str) (endS : Str) : List Str :=
  aprint s args sep endS false

/-- `lsection`: the deprecated alias; its generator body is
`with asection(header): yield`, i.e. it runs the client body directly
inside `asection` with no further effect of its own. -/
def lsectionP {ε : Type} (hdr : Str) (elapsed : ℚ) (body : Prog ε) : Prog ε :=
  .asectionP hdr elapsed body

/-- The default `Arbol` state: depth 0, tree formatting on, output on,
colors on, unbounded depth, elapsed time on, no active capture. -/
def st0 : St :=
  { depth := 0, passthrough := false, enable_output := true, colorful := true
    max_depth := none, elapsed_time := true, captured := false }

example : aprint st0 ["hello".data] spG nlG false =
    [['├', ' '], "hello\n".data] := by decide

example : (run (.asectionP "h".data 0 (.skip : Prog ℕ))
    { st0 with elapsed_time := false }).2.1 =
    ["├╗ h\n".data, "│\n".data] := by decide

example : (run (.asectionP "h".data 0 (.raiseE 7)) st0).2.2 = some 7 := by decide

/-! ## Helper lemmas -/

theorem flatMap_all_nil {α β : Type} (l : List α) (f : α → List β)
    (h : ∀ a ∈ l, f a = []) : l.flatMap f = [] := by
  induction l with
  | nil => rfl
  | cons a l ih =>
    simp [List.flatMap_cons, h a (by simp), ih fun a ha => h a (by simp [ha])]

theorem nativePrint_disabled (s : St) (t endS : Str)
    (h : s.enable_output = false) : nativePrint s t endS = [] := by
  simp [nativePrint, h]

theorem printElapsed_disabled (s : St) (q : ℚ)
    (h : s.enable_output = false) : printElapsed s q = [] := by
  unfold printElapsed
  split_ifs <;> simp [nativePrint_disabled _ _ _ h]

theorem sectionEntry_disabled (s : St) (hdr : Str)
    (h : s.enable_output = false) : sectionEntry s hdr = [] := by
  unfold sectionEntry
  split_ifs <;> simp [nativePrint_disabled _ _ _ h]

theorem sectionExit_disabled (s : St) (q : ℚ)
    (h : s.enable_output = false) : sectionExit s q = [] := by
  unfold sectionExit
  split_ifs <;>
    simp [nativePrint_disabled _ _ _ h, printElapsed_disabled _ _ h]

theorem aprint_tree_disabled (s : St) (args : List Str) (sep endS : Str)
    (sl : Bool) (h : s.enable_output = false) (hp : s.passthrough = false)
    (hc : s.captured = false) : aprint s args sep endS sl = [] := by
  unfold aprint
  rw [hp, hc]
  simp only [Bool.or_self, Bool.false_eq_true, if_false]
  split
  · refine flatMap_all_nil _ _ fun p _ => ?_
    split <;> simp [nativePrint_disabled _ _ _ h]
  · rfl

/-- `run` returns the state it started from: the depth increment of each
section is undone by its decrement, and no operation touches the
configuration fields. -/
theorem run_preserves_state {ε : Type} (p : Prog ε) (s : St) :
    (run p s).1 = s := by
  induction p generalizing s with
  | skip => rfl
  | raiseE e => rfl
  | aprintP args sep endS sl => rfl
  | seq p q ihp ihq =>
    simp only [run]
    split
    · exact ihp s
    · rw [ihq, ihp]
  | asectionP hdr t body ih =>
    simp only [run, ih]
    ext <;> simp

/-- C1: for every program of nested `asection` blocks whose bodies may
print, nest further sections, or raise, the shared depth counter
`Arbol._depth` after the program finishes (normally or by propagating a
failure) equals its value before: every increment at section entry is
matched by exactly one decrement at that section's exit.  This holds for
all programs, hence for any nesting depth (in particular 0..50). -/
theorem asection_depth_invariant {ε : Type} (p : Prog ε) (s : St) :
    ((run p s).1).depth = s.depth := by
  rw [run_preserves_state]

/-- C9: `set_log_max_depth(n)` stores `n - 1` clamped below at `0`:
for `n ≥ 1` the stored `max_depth` is `n - 1`, and for `n ≤ 0` it is
`0`; no error is raised (the function is total). -/
theorem set_log_max_depth_clamped (s : St) (n : ℤ) :
    (set_log_max_depth n s).max_depth = some (max 0 (n - 1))
    ∧ (1 ≤ n → (set_log_max_depth n s).max_depth = some (n - 1))
    ∧ (n ≤ 0 → (set_log_max_depth n s).max_depth = some 0) := by
  refine ⟨rfl, fun h => ?_, fun h => ?_⟩ <;>
    simp only [set_log_max_depth, Option.some.injEq] <;> omega

theorem set_log_max_depth_clamped_witness :
    (1 : ℤ) ≤ 5 ∧ (set_log_max_depth 5 st0).max_depth = some 4
    ∧ (-3 : ℤ) ≤ 0 ∧ (set_log_max_depth (-3) st0).max_depth = some 0 :=
  ⟨by decide, (set_log_max_depth_clamped st0 5).2.1 (by decide),
   by decide, (set_log_max_depth_clamped st0 (-3)).2.2 (by decide)⟩

/-- C10: the legacy facade is behaviourally equivalent to the current
one: `lprint` produces exactly the emissions of `aprint` with the same
arguments and `separate_lines=False`, and running a body under
`lsection` produces the same state, emissions, and exception propagation
as running it under `asection`. -/
theorem legacy_facade_equivalence :
    (∀ (s : St) (args : List Str) (sep endS : Str),
      lprint s args sep endS = aprint s args sep endS false)
    ∧ (∀ (ε : Type) (hdr : Str) (t : ℚ) (p : Prog ε) (s : St),
      run (lsectionP hdr t p) s = run (.asectionP hdr t p) s) :=
  ⟨fun _ _ _ _ => rfl, fun _ _ _ _ _ => rfl⟩

theorem colorise_id (s : St) (t : Str) : colorise s t = t := by
  unfold colorise color
  split <;> rfl

/-- C6: with `passthrough` set, `aprint("x")` emits exactly the raw
undecorated line `"x\n"` — no tree-glyph characters and no depth
prefix — for every depth and `max_depth` setting (both quantified away
inside `s`). -/
theorem passthrough_bypass (s : St) (sep : Str) (sl : Bool)
    (h : s.passthrough = true) :
    aprint s ["x".data] sep nlG sl = [['x', '\n']]
    ∧ ∀ e ∈ aprint s ["x".data] sep nlG sl, ∀ c ∈ e,
        c ∉ vlG ∧ c ∉ brG ∧ c ∉ bdG ∧ c ∉ tbG ∧ c ∉ laG := by
  have he : aprint s ["x".data] sep nlG sl = [['x', '\n']] := by
    unfold aprint
    rw [h]
    rfl
  refine ⟨he, ?_⟩
  rw [he]
  decide

theorem passthrough_bypass_witness :
    ({ st0 with passthrough := true }.passthrough = true)
    ∧ aprint { st0 with passthrough := true } ["x".data] spG nlG false
        = [['x', '\n']] :=
  ⟨rfl, (passthrough_bypass { st0 with passthrough := true } spG false rfl).1⟩

/-- C7: in non-passthrough (and non-captured) mode, `aprint` with no
arguments, or with arguments whose joined text is empty, produces zero
emissions: the single empty physical line is suppressed rather than
rendered as a bare glyph prefix. -/
theorem blank_line_suppression (s : St) (sep endS : Str) (sl : Bool)
    (hp : s.passthrough = false) (hc : s.captured = false) :
    aprint s [] sep endS sl = []
    ∧ ∀ args : List Str, joinArgs sep args = [] →
        aprint s args sep endS sl = [] := by
  have key : ∀ args : List Str, joinArgs sep args = [] →
      aprint s args sep endS sl = [] := by
    intro args hj
    unfold aprint
    rw [hp, hc, hj]
    simp only [Bool.or_self, Bool.false_eq_true, if_false]
    split
    · rfl
    · rfl
  exact ⟨key [] rfl, key⟩

theorem blank_line_suppression_witness :
    st0.passthrough = false ∧ st0.captured = false
    ∧ aprint st0 [] spG nlG false = []
    ∧ joinArgs spG [[]] = [] ∧ aprint st0 [[]] spG nlG false = [] :=
  ⟨rfl, rfl, (blank_line_suppression st0 spG nlG false rfl rfl).1,
   rfl, (blank_line_suppression st0 spG nlG false rfl rfl).2 [[]] rfl⟩

/-- C2: an exception raised in the body of an `asection` propagates to
the section's caller as the very same value, and only after the exit
bookkeeping: the resulting state carries the depth decrement and the
emissions include the exit footer (`sectionExit`, evaluated in the
post-decrement state) after the body's output. -/
theorem asection_failure_transparency {ε : Type} (hdr : Str) (t : ℚ)
    (p : Prog ε) (s s' : St) (out : List Str) (ex : ε)
    (hbody : run p { s with depth := s.depth + 1 } = (s', out, some ex)) :
    run (.asectionP hdr t p) s =
      ({ s' with depth := s'.depth - 1 },
        sectionEntry s hdr ++ out
          ++ sectionExit { s' with depth := s'.depth - 1 } t,
        some ex) := by
  simp only [run, hbody]

theorem asection_failure_transparency_witness :
    run (.raiseE (7 : ℕ))
        { st0 with elapsed_time := false, depth := (0 : ℤ) + 1 }
      = ({ st0 with elapsed_time := false, depth := 1 }, [], some 7)
    ∧ run (.asectionP "h".data 0 (.raiseE (7 : ℕ)))
        { st0 with elapsed_time := false }
      = ({ st0 with elapsed_time := false },
          ["├╗ h\n".data, "│\n".data], some 7) := by
  constructor
  · decide
  · have h := asection_failure_transparency "h".data 0 (.raiseE (7 : ℕ))
      { st0 with elapsed_time := false }
      { st0 with elapsed_time := false, depth := 1 } [] 7 (by decide)
    rw [h]
    decide

/-- C8: the elapsed-time formatter selects its unit by first-match-wins
thresholds on the duration in seconds: below 0.001 microseconds, below 1
milliseconds, below 60 seconds, below 3600 minutes, below 86400 hours,
otherwise days; in each range the rendered footer line ends with the
corresponding unit name. -/
theorem duration_unit_selection (s : St) (q : ℚ)
    (hout : s.enable_output = true) :
    (q < mkRat 1 1000 →
      ∃ pre, printElapsed s q = [pre ++ (microStr ++ nlG)])
    ∧ (mkRat 1 1000 ≤ q → q < 1 →
      ∃ pre, printElapsed s q = [pre ++ (milliStr ++ nlG)])
    ∧ (1 ≤ q → q < 60 →
      ∃ pre, printElapsed s q = [pre ++ (secondsStr ++ nlG)])
    ∧ (60 ≤ q → q < 3600 →
      ∃ pre, printElapsed s q = [pre ++ (minutesStr ++ nlG)])
    ∧ (3600 ≤ q → q < 86400 →
      ∃ pre, printElapsed s q = [pre ++ (hoursStr ++ nlG)])
    ∧ (86400 ≤ q →
      ∃ pre, printElapsed s q = [pre ++ (daysStr ++ nlG)]) := by
  have h3600 : ((60 : ℚ) * 60) = 3600 := by norm_num
  have h86400 : ((24 : ℚ) * 60 * 60) = 86400 := by norm_num
  refine ⟨fun h1 => ?_, fun h1 h2 => ?_, fun h1 h2 => ?_,
    fun h1 h2 => ?_, fun h1 h2 => ?_, fun h1 => ?_⟩ <;>
    unfold printElapsed
  · rw [if_pos h1]
    exact ⟨elapsedPrefix s ++ spG ++ format2 (q * 1000 * 1000) ++ spG,
      by simp [nativePrint, hout, colorise_id, List.append_assoc]⟩
  · rw [if_neg (not_lt.mpr h1), if_pos h2]
    exact ⟨elapsedPrefix s ++ spG ++ format2 (q * 1000) ++ spG,
      by simp [nativePrint, hout, colorise_id, List.append_assoc]⟩
  · rw [if_neg (not_lt.mpr (le_trans (by norm_num) h1)),
      if_neg (not_lt.mpr h1), if_pos h2]
    exact ⟨elapsedPrefix s ++ spG ++ format2 q ++ spG,
      by simp [nativePrint, hout, colorise_id, List.append_assoc]⟩
  · rw [if_neg (not_lt.mpr (le_trans (by norm_num) h1)),
      if_neg (not_lt.mpr (le_trans (by norm_num) h1)),
      if_neg (not_lt.mpr (le_trans (by norm_num) h1)),
      if_pos (h3600 ▸ h2)]
    exact ⟨elapsedPrefix s ++ spG ++ format2 (q / 60) ++ spG,
      by simp [nativePrint, hout, colorise_id, List.append_assoc]⟩
  · rw [if_neg (not_lt.mpr (le_trans (by norm_num) h1)),
      if_neg (not_lt.mpr (le_trans (by norm_num) h1)),
      if_neg (not_lt.mpr (le_trans (by norm_num) h1)),
      if_neg (not_lt.mpr (le_trans (by norm_num : (60:ℚ)*60 ≤ 3600) h1)),
      if_pos (h86400 ▸ h2)]
    exact ⟨elapsedPrefix s ++ spG ++ format2 (q / (60 * 60)) ++ spG,
      by simp [nativePrint, hout, colorise_id, List.append_assoc]⟩
  · rw [if_neg (not_lt.mpr (le_trans (by norm_num) h1)),
      if_neg (not_lt.mpr (le_trans (by norm_num) h1)),
      if_neg (not_lt.mpr (le_trans (by norm_num) h1)),
      if_neg (not_lt.mpr (le_trans (by norm_num : (60:ℚ)*60 ≤ 86400) h1)),
      if_neg (not_lt.mpr (le_trans (by norm_num : (24:ℚ)*60*60 ≤ 86400) h1))]
    exact ⟨elapsedPrefix s ++ spG ++ format2 (q / (24 * 60 * 60)) ++ spG,
      by simp [nativePrint, hout, colorise_id, List.append_assoc]⟩

theorem duration_unit_selection_witness :
    (mkRat 1 2000 < mkRat 1 1000
      ∧ ∃ pre, printElapsed st0 (mkRat 1 2000) = [pre ++ (microStr ++ nlG)])
    ∧ (mkRat 1 1000 ≤ mkRat 1 2 ∧ (mkRat 1 2 : ℚ) < 1
      ∧ ∃ pre, printElapsed st0 (mkRat 1 2) = [pre ++ (milliStr ++ nlG)])
    ∧ ((1 : ℚ) ≤ 30 ∧ (30 : ℚ) < 60
      ∧ ∃ pre, printElapsed st0 30 = [pre ++ (secondsStr ++ nlG)])
    ∧ ((60 : ℚ) ≤ 120 ∧ (120 : ℚ) < 3600
      ∧ ∃ pre, printElapsed st0 120 = [pre ++ (minutesStr ++ nlG)])
    ∧ ((3600 : ℚ) ≤ 7200 ∧ (7200 : ℚ) < 86400
      ∧ ∃ pre, printElapsed st0 7200 = [pre ++ (hoursStr ++ nlG)])
    ∧ ((86400 : ℚ) ≤ 172800
      ∧ ∃ pre, printElapsed st0 172800 = [pre ++ (daysStr ++ nlG)]) :=
  ⟨⟨by decide, (duration_unit_selection st0 _ rfl).1 (by decide)⟩,
   ⟨by decide, by decide,
     (duration_unit_selection st0 _ rfl).2.1 (by decide) (by decide)⟩,
   ⟨by decide, by decide,
     (duration_unit_selection st0 _ rfl).2.2.1 (by decide) (by decide)⟩,
   ⟨by decide, by decide,
     (duration_unit_selection st0 _ rfl).2.2.2.1 (by decide) (by decide)⟩,
   ⟨by decide, by decide,
     (duration_unit_selection st0 _ rfl).2.2.2.2.1 (by decide) (by decide)⟩,
   ⟨by decide, (duration_unit_selection st0 _ rfl).2.2.2.2.2 (by decide)⟩⟩

/-- C5 counterexample: with internal `max_depth = 0`, a single section
(the truncation-boundary case, entered at depth 0 and rendered as a
truncation marker) still gets its exit bookkeeping rendered — the bare
closing line appears — even though the claimed gating condition
`post-decrement depth + 1 <= max_depth` (here `0 + 1 <= 0`) is false.
The code's actual exit check is `depth <= max_depth` on the
post-decrement depth. -/
theorem footer_condition_counterexample :
    ¬ ((0 : ℤ) + 1 ≤ 0)
    ∧ (run (.asectionP "h".data 0 (.skip : Prog Unit))
        { st0 with max_depth := some 0, elapsed_time := false }).2.1 =
      ["├= h (log tree truncated here)\n".data, "│\n".data] := by
  decide

/-- C5 (amended): on section exit, after the depth decrement, the
elapsed-time footer and bare closing line are rendered exactly when the
post-decrement depth satisfies `depth <= max_depth` (equivalently, the
section's own level `depth + 1` satisfies `depth + 1 <= max_depth + 1`);
this covers the truncation boundary (post-decrement `depth = max_depth`),
so a section rendered as a truncation marker still receives its
footer. -/
theorem footer_condition_amended (s : St) (t : ℚ)
    (hout : s.enable_output = true) :
    (sectionExit s t = [] ↔ leMax s.depth s.max_depth = false)
    ∧ (∀ k : ℤ, s.max_depth = some k → s.depth = k →
        sectionExit s t ≠ []) := by
  have main : sectionExit s t = [] ↔ leMax s.depth s.max_depth = false := by
    unfold sectionExit
    cases h : leMax s.depth s.max_depth
    · simp
    · simp [nativePrint, hout]
  refine ⟨main, fun k hk hd => ?_⟩
  rw [Ne, main]
  simp [leMax, hk, hd]

theorem footer_condition_amended_witness :
    ({ st0 with max_depth := some 0, elapsed_time := false }.enable_output
      = true)
    ∧ (sectionExit { st0 with max_depth := some 0, elapsed_time := false } 0
        ≠ []) :=
  ⟨rfl,
   (footer_condition_amended
      { st0 with max_depth := some 0, elapsed_time := false } 0 rfl).2
     0 rfl rfl⟩

/-- C4 counterexample: with `enable_output = false` but
`passthrough = true`, `aprint("x")` still emits output — the
passthrough branch calls the raw built-in `print`, which is not gated by
`enable_output` (only `native_print` is). -/
theorem output_disabled_counterexample :
    ({ st0 with passthrough := true, enable_output := false }.enable_output
      = false)
    ∧ aprint { st0 with passthrough := true, enable_output := false }
        ["x".data] spG nlG false ≠ [] := by
  decide

/-- C4 (amended): with `enable_output = false`, and provided
`passthrough` is off and no capture is active, no operation emits any
output: `aprint` emits nothing, `asection` entry and exit emit nothing
(including the elapsed footer), for any program and any other settings.
(The `acapture` flush re-enters `aprint` with `captured` already reset,
so it is covered by the `aprint` case.)  When `passthrough` or
`captured` is set, the raw-print branch of `aprint` is not gated by
`enable_output`. -/
theorem output_disabled_tree_silent {ε : Type} (p : Prog ε) (s : St)
    (h : s.enable_output = false) (hp : s.passthrough = false)
    (hc : s.captured = false) : (run p s).2.1 = [] := by
  induction p generalizing s with
  | skip => rfl
  | raiseE e => rfl
  | aprintP args sep endS sl => exact aprint_tree_disabled s args sep endS sl h hp hc
  | seq p q ihp ihq =>
    rcases hr : run p s with ⟨s1, o1, e1⟩
    have h1 : o1 = [] := by
      have := ihp s h hp hc
      rw [hr] at this
      exact this
    have hs1 : s1 = s := by
      have := run_preserves_state p s
      rw [hr] at this
      exact this
    cases e1 <;> simp [run, hr, h1, hs1, ihq s h hp hc]
  | asectionP hdr t body ih =>
    have hb := ih { s with depth := s.depth + 1 } h hp hc
    have hs1 := run_preserves_state body { s with depth := s.depth + 1 }
    simp only [run, sectionEntry_disabled _ _ h, hb, hs1, List.append_nil,
      List.nil_append]
    exact sectionExit_disabled _ _ h

theorem output_disabled_tree_silent_witness :
    ({ st0 with enable_output := false }.enable_output = false)
    ∧ ({ st0 with enable_output := false }.passthrough = false)
    ∧ ({ st0 with enable_output := false }.captured = false)
    ∧ (run (.asectionP "h".data 0
          (.seq (.aprintP ["x".data] spG nlG false) (.raiseE (5 : ℕ))))
        { st0 with enable_output := false }).2.1 = [] :=
  ⟨rfl, rfl, rfl, output_disabled_tree_silent _ _ rfl rfl rfl⟩

/-! ## The truncation-boundary scenario (C3) -/

/-- The test section header used by the nesting scenario. -/
def hhdr : Str := ['h']

/-- The test body text used by the nesting scenario. -/
def xarg : Str := ['x']

/-- `n` nested sections, each printing `"x"` before nesting further. -/
def nest : ℕ → Prog Unit
  | 0 => .skip
  | n + 1 => .asectionP hhdr 0 (.seq (.aprintP [xarg] spG nlG false) (nest n))

/-- Default-configuration state with internal `max_depth = k` and
current depth `d`. -/
def stK (k : ℕ) (d : ℤ) : St :=
  { depth := d, passthrough := false, enable_output := true,
    colorful := true, max_depth := some (k : ℤ), elapsed_time := true,
    captured := false }

/-- The emissions of the `aprint` body call at depth `j`. -/
def bodyEv (k : ℕ) (j : ℤ) : List Str :=
  aprint (stK k j) [xarg] spG nlG false

/-- Closed form of the emissions of `nest n` started at depth `d`. -/
def nestEv (k : ℕ) : ℤ → ℕ → List Str
  | _, 0 => []
  | d, n + 1 =>
    sectionEntry (stK k d) hhdr ++ bodyEv k (d + 1)
      ++ nestEv k (d + 1) n ++ sectionExit (stK k d) 0

theorem run_nest (k : ℕ) (n : ℕ) (d : ℤ) :
    run (nest n) (stK k d) = (stK k d, nestEv k d n, none) := by
  induction n generalizing d with
  | zero => rfl
  | succ n ih =>
    have ih' := ih (d + 1)
    simp only [stK] at ih' ⊢
    simp only [nest, run, nestEv, bodyEv, stK, ih', add_sub_cancel_right,
      List.append_assoc]

theorem pyRepeat_succ (g : Str) (d : ℤ) (h : 0 ≤ d) :
    pyRepeat g (d + 1) = pyRepeat g d ++ g := by
  unfold pyRepeat
  rw [show (d + 1).toNat = d.toNat + 1 by omega, List.replicate_succ']
  simp

/-- Canonical tail of a rendered section-header event. -/
def hdrTail : Str := bdG ++ (spG ++ (hhdr ++ nlG))

/-- Canonical tail of a rendered truncation-marker event. -/
def truncTail : Str := brG ++ (['='] ++ (spG ++ (hhdr ++ (truncMsg ++ nlG))))

/-- Canonical tail of the glyph-prefix event of a rendered body line. -/
def preTail : Str := brG ++ spG

/-- The content event of a rendered `aprint` body line. -/
def xEv : Str := xarg ++ nlG

/-- Canonical tail of an elapsed-time footer event for a zero duration. -/
def elapsedTail : Str :=
  (tbG ++ laG ++ spG ++ format2 ((0 : ℚ) * 1000 * 1000) ++ spG)
    ++ (microStr ++ nlG)

theorem entry_eq (k : ℕ) (d : ℤ) :
    sectionEntry (stK k d) hhdr =
      if d + 1 ≤ (k : ℤ) then [pyRepeat vlG d ++ hdrTail]
      else if d = (k : ℤ) then [pyRepeat vlG d ++ truncTail]
      else [] := by
  by_cases h1 : d + 1 ≤ (k : ℤ)
  · rw [if_pos h1]
    simp [sectionEntry, stK, leMax, h1, nativePrint, colorise, color,
      hdrTail, List.append_assoc]
  · rw [if_neg h1]
    by_cases h2 : d = (k : ℤ)
    · rw [if_pos h2]
      have he : d + 1 = (k : ℤ) + 1 := by omega
      simp [sectionEntry, stK, leMax, eqMaxP1, h1, he, nativePrint,
        colorise, color, truncTail, List.append_assoc]
    · rw [if_neg h2]
      have he : ¬ (d + 1 = (k : ℤ) + 1) := by omega
      simp [sectionEntry, stK, leMax, eqMaxP1, h1, he]

theorem body_eq (k : ℕ) (j : ℤ) :
    bodyEv k j =
      if j ≤ (k : ℤ) then [pyRepeat vlG j ++ preTail, xEv] else [] := by
  by_cases h : j ≤ (k : ℤ)
  · rw [if_pos h]
    simp [bodyEv, aprint, stK, leMax, h, pyMin, min_eq_right h,
      joinArgs, xarg, pySplitLines, nativePrint, colorise, color,
      preTail, xEv, List.append_assoc]
  · rw [if_neg h]
    simp [bodyEv, aprint, stK, leMax, h]

theorem exit_eq (k : ℕ) (d : ℤ) :
    sectionExit (stK k d) 0 =
      if d ≤ (k : ℤ) then
        [pyRepeat vlG (d + 1) ++ elapsedTail, pyRepeat vlG (d + 1) ++ nlG]
      else [] := by
  by_cases h : d ≤ (k : ℤ)
  · rw [if_pos h]
    have h0 : (0 : ℚ) < mkRat 1 1000 := by decide
    simp [sectionExit, stK, leMax, h, printElapsed, h0, elapsedPrefix,
      nativePrint, colorise, color, elapsedTail, List.append_assoc]
  · rw [if_neg h]
    simp [sectionExit, stK, leMax, h]

/-- The last two characters of an emitted line, used to classify the
kind of event (header, marker, body, footer, closing line). -/
def ending2 (e : Str) : Str := e.reverse.take 2

theorem ending2_append (p t : Str) (h : 2 ≤ t.length) :
    ending2 (p ++ t) = ending2 t := by
  unfold ending2
  rw [List.reverse_append, List.take_append_of_le_length (by simpa using h)]

/-- Does this event end like the truncation marker (`...)` + newline)? -/
def isTruncEv (e : Str) : Bool := ending2 e == ['\n', ')']

/-- Does this event end like a section header (`...h` + newline)? -/
def isHeaderEv (e : Str) : Bool := ending2 e == ['\n', 'h']

/-- Does this event end like a rendered body line (`...x` + newline)? -/
def isBodyEv (e : Str) : Bool := ending2 e == ['\n', 'x']

/-- Does this event end like an elapsed-time footer (`...s` + newline)? -/
def isElapsedEv (e : Str) : Bool := ending2 e == ['\n', 's']

/-- Does this event end like a bare closing line (`...│` + newline)? -/
def isCloseEv (e : Str) : Bool := ending2 e == ['\n', '│']

theorem ending2_hdr (d : ℤ) :
    ending2 (pyRepeat vlG d ++ hdrTail) = ['\n', 'h'] := by
  rw [ending2_append _ _ (by decide)]
  decide

theorem ending2_trunc (d : ℤ) :
    ending2 (pyRepeat vlG d ++ truncTail) = ['\n', ')'] := by
  rw [show pyRepeat vlG d ++ truncTail =
      (pyRepeat vlG d ++ (brG ++ (['='] ++ (spG ++ hhdr)))) ++ (truncMsg ++ nlG)
    from by simp [truncTail, List.append_assoc]]
  rw [ending2_append _ _ (by decide)]
  decide

theorem ending2_pre (j : ℤ) :
    ending2 (pyRepeat vlG j ++ preTail) = [' ', '├'] := by
  rw [ending2_append _ _ (by decide)]
  decide

theorem ending2_xEv : ending2 xEv = ['\n', 'x'] := by decide

theorem ending2_elapsed (x : Str) :
    ending2 (x ++ elapsedTail) = ['\n', 's'] := by
  rw [show x ++ elapsedTail =
      (x ++ (tbG ++ laG ++ spG ++ format2 ((0 : ℚ) * 1000 * 1000) ++ spG))
        ++ (microStr ++ nlG)
    from by simp [elapsedTail, List.append_assoc]]
  rw [ending2_append _ _ (by decide)]
  decide

theorem ending2_close (d : ℤ) (hd : 0 ≤ d) :
    ending2 (pyRepeat vlG (d + 1) ++ nlG) = ['\n', '│'] := by
  rw [pyRepeat_succ _ _ hd, List.append_assoc, ending2_append _ _ (by decide)]
  decide

theorem isTruncEv_hdr (d : ℤ) :
    isTruncEv (pyRepeat vlG d ++ hdrTail) = false := by
  unfold isTruncEv
  rw [ending2_hdr d]
  decide

theorem isTruncEv_trunc (d : ℤ) :
    isTruncEv (pyRepeat vlG d ++ truncTail) = true := by
  unfold isTruncEv
  rw [ending2_trunc d]
  decide

theorem isTruncEv_pre (d : ℤ) :
    isTruncEv (pyRepeat vlG d ++ preTail) = false := by
  unfold isTruncEv
  rw [ending2_pre d]
  decide

theorem isTruncEv_xEv :
    isTruncEv (xEv) = false := by
  unfold isTruncEv
  rw [ending2_xEv]
  decide

theorem isTruncEv_elapsed (x : Str) :
    isTruncEv (x ++ elapsedTail) = false := by
  unfold isTruncEv
  rw [ending2_elapsed x]
  decide

theorem isTruncEv_close (d : ℤ) (hd : 0 ≤ d) :
    isTruncEv (pyRepeat vlG (d + 1) ++ nlG) = false := by
  unfold isTruncEv
  rw [ending2_close d hd]
  decide

theorem isHeaderEv_hdr (d : ℤ) :
    isHeaderEv (pyRepeat vlG d ++ hdrTail) = true := by
  unfold isHeaderEv
  rw [ending2_hdr d]
  decide

theorem isHeaderEv_trunc (d : ℤ) :
    isHeaderEv (pyRepeat vlG d ++ truncTail) = false := by
  unfold isHeaderEv
  rw [ending2_trunc d]
  decide

theorem isHeaderEv_pre (d : ℤ) :
    isHeaderEv (pyRepeat vlG d ++ preTail) = false := by
  unfold isHeaderEv
  rw [ending2_pre d]
  decide

theorem isHeaderEv_xEv :
    isHeaderEv (xEv) = false := by
  unfold isHeaderEv
  rw [ending2_xEv]
  decide

theorem isHeaderEv_elapsed (x : Str) :
    isHeaderEv (x ++ elapsedTail) = false := by
  unfold isHeaderEv
  rw [ending2_elapsed x]
  decide

theorem isHeaderEv_close (d : ℤ) (hd : 0 ≤ d) :
    isHeaderEv (pyRepeat vlG (d + 1) ++ nlG) = false := by
  unfold isHeaderEv
  rw [ending2_close d hd]
  decide

theorem isBodyEv_hdr (d : ℤ) :
    isBodyEv (pyRepeat vlG d ++ hdrTail) = false := by
  unfold isBodyEv
  rw [ending2_hdr d]
  decide

theorem isBodyEv_trunc (d : ℤ) :
    isBodyEv (pyRepeat vlG d ++ truncTail) = false := by
  unfold isBodyEv
  rw [ending2_trunc d]
  decide

theorem isBodyEv_pre (d : ℤ) :
    isBodyEv (pyRepeat vlG d ++ preTail) = false := by
  unfold isBodyEv
  rw [ending2_pre d]
  decide

theorem isBodyEv_xEv :
    isBodyEv (xEv) = true := by
  unfold isBodyEv
  rw [ending2_xEv]
  decide

theorem isBodyEv_elapsed (x : Str) :
    isBodyEv (x ++ elapsedTail) = false := by
  unfold isBodyEv
  rw [ending2_elapsed x]
  decide

theorem isBodyEv_close (d : ℤ) (hd : 0 ≤ d) :
    isBodyEv (pyRepeat vlG (d + 1) ++ nlG) = false := by
  unfold isBodyEv
  rw [ending2_close d hd]
  decide

theorem isElapsedEv_hdr (d : ℤ) :
    isElapsedEv (pyRepeat vlG d ++ hdrTail) = false := by
  unfold isElapsedEv
  rw [ending2_hdr d]
  decide

theorem isElapsedEv_trunc (d : ℤ) :
    isElapsedEv (pyRepeat vlG d ++ truncTail) = false := by
  unfold isElapsedEv
  rw [ending2_trunc d]
  decide

theorem isElapsedEv_pre (d : ℤ) :
    isElapsedEv (pyRepeat vlG d ++ preTail) = false := by
  unfold isElapsedEv
  rw [ending2_pre d]
  decide

theorem isElapsedEv_xEv :
    isElapsedEv (xEv) = false := by
  unfold isElapsedEv
  rw [ending2_xEv]
  decide

theorem isElapsedEv_elapsed (x : Str) :
    isElapsedEv (x ++ elapsedTail) = true := by
  unfold isElapsedEv
  rw [ending2_elapsed x]
  decide

theorem isElapsedEv_close (d : ℤ) (hd : 0 ≤ d) :
    isElapsedEv (pyRepeat vlG (d + 1) ++ nlG) = false := by
  unfold isElapsedEv
  rw [ending2_close d hd]
  decide

theorem isCloseEv_hdr (d : ℤ) :
    isCloseEv (pyRepeat vlG d ++ hdrTail) = false := by
  unfold isCloseEv
  rw [ending2_hdr d]
  decide

theorem isCloseEv_trunc (d : ℤ) :
    isCloseEv (pyRepeat vlG d ++ truncTail) = false := by
  unfold isCloseEv
  rw [ending2_trunc d]
  decide

theorem isCloseEv_pre (d : ℤ) :
    isCloseEv (pyRepeat vlG d ++ preTail) = false := by
  unfold isCloseEv
  rw [ending2_pre d]
  decide

theorem isCloseEv_xEv :
    isCloseEv (xEv) = false := by
  unfold isCloseEv
  rw [ending2_xEv]
  decide

theorem isCloseEv_elapsed (x : Str) :
    isCloseEv (x ++ elapsedTail) = false := by
  unfold isCloseEv
  rw [ending2_elapsed x]
  decide

theorem isCloseEv_close (d : ℤ) (hd : 0 ≤ d) :
    isCloseEv (pyRepeat vlG (d + 1) ++ nlG) = true := by
  unfold isCloseEv
  rw [ending2_close d hd]
  decide

theorem count_trunc (k : ℕ) (n : ℕ) (d : ℤ) (hd : 0 ≤ d) :
    List.countP isTruncEv (nestEv k d n) = if d ≤ (k : ℤ) ∧ (k : ℤ) < d + n then 1 else 0 := by
  induction n generalizing d with
  | zero =>
    rw [show nestEv k d 0 = [] from rfl]
    simp only [List.countP_nil]
    split_ifs with h
    · omega
    · rfl
  | succ n ih =>
    rw [nestEv, entry_eq, body_eq, exit_eq]
    simp only [List.countP_append, ih (d + 1) (by omega)]
    split_ifs <;>
      (try simp [List.countP_cons, List.countP_nil,
        isTruncEv_hdr, isTruncEv_trunc, isTruncEv_pre, isTruncEv_xEv,
        isTruncEv_elapsed, isTruncEv_close d hd]) <;> omega

theorem count_header (k : ℕ) (n : ℕ) (d : ℤ) (hd : 0 ≤ d) :
    List.countP isHeaderEv (nestEv k d n) = (min (k : ℤ) (d + n) - d).toNat := by
  induction n generalizing d with
  | zero =>
    rw [show nestEv k d 0 = [] from rfl]
    simp only [List.countP_nil]
    omega
  | succ n ih =>
    rw [nestEv, entry_eq, body_eq, exit_eq]
    simp only [List.countP_append, ih (d + 1) (by omega)]
    split_ifs <;>
      (try simp [List.countP_cons, List.countP_nil,
        isHeaderEv_hdr, isHeaderEv_trunc, isHeaderEv_pre, isHeaderEv_xEv,
        isHeaderEv_elapsed, isHeaderEv_close d hd]) <;> omega

theorem count_body (k : ℕ) (n : ℕ) (d : ℤ) (hd : 0 ≤ d) :
    List.countP isBodyEv (nestEv k d n) = (min (k : ℤ) (d + n) - d).toNat := by
  induction n generalizing d with
  | zero =>
    rw [show nestEv k d 0 = [] from rfl]
    simp only [List.countP_nil]
    omega
  | succ n ih =>
    rw [nestEv, entry_eq, body_eq, exit_eq]
    simp only [List.countP_append, ih (d + 1) (by omega)]
    split_ifs <;>
      (try simp [List.countP_cons, List.countP_nil,
        isBodyEv_hdr, isBodyEv_trunc, isBodyEv_pre, isBodyEv_xEv,
        isBodyEv_elapsed, isBodyEv_close d hd]) <;> omega

theorem count_elapsed (k : ℕ) (n : ℕ) (d : ℤ) (hd : 0 ≤ d) :
    List.countP isElapsedEv (nestEv k d n) = (min ((k : ℤ) + 1) (d + n) - d).toNat := by
  induction n generalizing d with
  | zero =>
    rw [show nestEv k d 0 = [] from rfl]
    simp only [List.countP_nil]
    omega
  | succ n ih =>
    rw [nestEv, entry_eq, body_eq, exit_eq]
    simp only [List.countP_append, ih (d + 1) (by omega)]
    split_ifs <;>
      (try simp [List.countP_cons, List.countP_nil,
        isElapsedEv_hdr, isElapsedEv_trunc, isElapsedEv_pre, isElapsedEv_xEv,
        isElapsedEv_elapsed, isElapsedEv_close d hd]) <;> omega

theorem count_close (k : ℕ) (n : ℕ) (d : ℤ) (hd : 0 ≤ d) :
    List.countP isCloseEv (nestEv k d n) = (min ((k : ℤ) + 1) (d + n) - d).toNat := by
  induction n generalizing d with
  | zero =>
    rw [show nestEv k d 0 = [] from rfl]
    simp only [List.countP_nil]
    omega
  | succ n ih =>
    rw [nestEv, entry_eq, body_eq, exit_eq]
    simp only [List.countP_append, ih (d + 1) (by omega)]
    split_ifs <;>
      (try simp [List.countP_cons, List.countP_nil,
        isCloseEv_hdr, isCloseEv_trunc, isCloseEv_pre, isCloseEv_xEv,
        isCloseEv_elapsed, isCloseEv_close d hd]) <;> omega

theorem nestEv_deep (k : ℕ) (n : ℕ) (d : ℤ) (hk : (k : ℤ) < d) :
    nestEv k d n = [] := by
  induction n generalizing d with
  | zero => rfl
  | succ n ih =>
    rw [nestEv, entry_eq, body_eq, exit_eq, if_neg (by omega),
      if_neg (by omega), if_neg (by omega), if_neg (by omega),
      ih (d + 1) (by omega)]
    rfl

theorem nestEv_stable (k m : ℕ) : ∀ (n : ℕ) (d : ℤ), 0 ≤ d →
    (k : ℤ) + 1 ≤ d + n → nestEv k d (n + m) = nestEv k d n := by
  intro n
  induction n with
  | zero =>
    intro d h0 hk
    rw [Nat.zero_add, nestEv_deep k m d (by omega)]
    rfl
  | succ n ih =>
    intro d h0 hk
    rw [show n + 1 + m = (n + m) + 1 by omega, nestEv, nestEv,
      ih (d + 1) (by omega) (by omega)]

/-- C3: with internal `max_depth = k`, entering `k + 1` (or more) levels
of nested sections, each printing a body line, renders exactly one
truncation marker (for the section at level `k + 1`), exactly `k`
section headers and `k` rendered body lines (for levels within the
bound), and an elapsed-time footer and a closing line for exactly the
`k + 1` sections at levels `0` through `k` inclusive — the truncated
boundary section included; and any levels beyond `k + 1` (the `+ m`
part) add no output at all: no headers, no bodies, no markers, no
footers. -/
theorem truncation_boundary (k m : ℕ) :
    (run (nest (k + 1 + m)) (stK k 0)).2.1 = (run (nest (k + 1)) (stK k 0)).2.1
    ∧ List.countP isTruncEv ((run (nest (k + 1)) (stK k 0)).2.1) = 1
    ∧ List.countP isHeaderEv ((run (nest (k + 1)) (stK k 0)).2.1) = k
    ∧ List.countP isBodyEv ((run (nest (k + 1)) (stK k 0)).2.1) = k
    ∧ List.countP isElapsedEv ((run (nest (k + 1)) (stK k 0)).2.1) = k + 1
    ∧ List.countP isCloseEv ((run (nest (k + 1)) (stK k 0)).2.1) = k + 1 := by
  have h1 : (run (nest (k + 1 + m)) (stK k 0)).2.1 = nestEv k 0 (k + 1 + m) := by
    rw [run_nest]
  have h2 : (run (nest (k + 1)) (stK k 0)).2.1 = nestEv k 0 (k + 1) := by
    rw [run_nest]
  rw [h1, h2]
  refine ⟨nestEv_stable k m (k + 1) 0 le_rfl (by omega), ?_, ?_, ?_, ?_, ?_⟩
  · rw [count_trunc k (k + 1) 0 le_rfl, if_pos ⟨by omega, by omega⟩]
  · rw [count_header k (k + 1) 0 le_rfl]
    omega
  · rw [count_body k (k + 1) 0 le_rfl]
    omega
  · rw [count_elapsed k (k + 1) 0 le_rfl]
    omega
  · rw [count_close k (k + 1) 0 le_rfl]
    omega
